import Mathlib

/-!
Verification of the core of the js-inputid library.

Strings are modelled as lists of Unicode code points (Lean `Char`).
Behaviour of the JavaScript runtime that depends on the Unicode character
database (NFKD normalization, the regex classes `\p{L}` and `\p{M}`, and
`String.prototype.toLowerCase`) is abstracted into a `UnicodeModel`
parameter, a record of functions together with the facts about them that
the proofs need (each fact is true of the real Unicode data).  Everything
else is translated directly from `src/functions.js`, `src/InputIdOptions.js`
and the `InputId` class.
-/

/-- The Unicode combining diacritical marks block U+0300..U+036F, matched by
the regex `[̀-ͯ]` in `clean`. -/
def isCombiningMark (c : Char) : Bool :=
  0x300 ≤ c.toNat && c.toNat ≤ 0x36F

/-- ASCII decimal digit, the `0-9` part of both character classes in `clean`. -/
def isAsciiDigit (c : Char) : Bool :=
  48 ≤ c.toNat && c.toNat ≤ 57

/-- ASCII letter, the `a-zA-Z` part of the legacy character class in `clean`. -/
def isAsciiLetter (c : Char) : Bool :=
  (97 ≤ c.toNat && c.toNat ≤ 122) || (65 ≤ c.toNat && c.toNat ≤ 90)

/-- The character class `[0-9a-zA-Z_-]` used by `clean` for non-HTML5
(legacy) documents. -/
def allowedLegacy (c : Char) : Bool :=
  isAsciiDigit c || isAsciiLetter c || c == '_' || c == '-'

/-- Abstraction of the Unicode-dependent pieces of the JavaScript runtime:
`String.prototype.normalize('NFKD')`, the regex classes `\p{L}` / `\p{M}`,
and `String.prototype.toLowerCase`, together with the facts about them used
in the proofs (each holds of the real Unicode character data: lowercasing
the empty string gives the empty string, and lowercasing a string made of
digits, letters, marks, underscores and hyphens yields only such
characters). -/
structure UnicodeModel where
  nfkd : List Char → List Char
  isLetter : Char → Bool
  isMark : Char → Bool
  toLower : List Char → List Char
  lower_nil : toLower [] = []
  lower_strict : ∀ s : List Char,
    (∀ c ∈ s, (isAsciiDigit c || isLetter c || isMark c || c == '_' || c == '-') = true) →
    ∀ c ∈ toLower s, (isAsciiDigit c || isLetter c || isMark c || c == '_' || c == '-') = true
  lower_legacy : ∀ s : List Char,
    (∀ c ∈ s, allowedLegacy c = true) →
    ∀ c ∈ toLower s, allowedLegacy c = true

/-- The document type node: `name`, `publicId` and `systemId`, with the
empty list standing for an empty (falsy) string. -/
structure Doctype where
  name : List Char
  publicId : List Char
  systemId : List Char

/-- The HTML5 test in `clean`:
`doctype.name === 'html' && !doctype.publicId && !doctype.systemId`. -/
def isHtml5 (dt : Doctype) : Bool :=
  dt.name == ("html".data) && dt.publicId.isEmpty && dt.systemId.isEmpty

/-- The character class admitted by the replacement regex of `clean` for a
given document: `[0-9\p{L}\p{M}_-]` for HTML5, `[0-9a-zA-Z_-]` otherwise. -/
def modeAllowed (U : UnicodeModel) (dt : Doctype) (c : Char) : Bool :=
  if isHtml5 dt then isAsciiDigit c || U.isLetter c || U.isMark c || c == '_' || c == '-'
  else allowedLegacy c

/-- The step `.replace(invalidCharactersRegex, () => '-')` of `clean`: each
code point outside the allowed class becomes a single hyphen. -/
def replaceInvalid (allowed : Char → Bool) (s : List Char) : List Char :=
  s.map (fun c => if allowed c then c else '-')

/-- The hyphen-collapsing replace of `clean` (a global replace of the
pattern "hyphen followed by one or more hyphens" with a single hyphen):
every run of two or more consecutive hyphens collapses to a single hyphen,
runs of one are untouched. -/
def collapseHyphens : List Char → List Char
  | [] => []
  | [c] => [c]
  | c1 :: c2 :: rest =>
    if c1 == '-' && c2 == '-' then collapseHyphens (c2 :: rest)
    else c1 :: collapseHyphens (c2 :: rest)

/-- One side of the stripping regex `/^-+|-+$|^_|_$/g`: at the start of the
string the regex removes a maximal run of hyphens (alternative `^-+`), or
else a single underscore (alternative `^_`). -/
def dropLead : List Char → List Char
  | [] => []
  | c :: rest =>
    if c == '-' then (c :: rest).dropWhile (fun x => x == '-')
    else if c == '_' then rest
    else c :: rest

/-- The step `.replace(/^-+|-+$|^_|_$/g, '')` of `clean`.  The global
replace makes a single pass: it removes a leading hyphen run or a single
leading underscore, and — from what remains — a trailing hyphen run or a
single trailing underscore.  The trailing side is the leading side of the
reversed string. -/
def stripEnds (s : List Char) : List Char :=
  (dropLead ((dropLead s).reverse)).reverse

/-- The sanitization chain of `clean` before the end-stripping step: NFKD,
removal of combining diacritical marks, replacement of disallowed code
points by hyphens, hyphen-run collapsing. -/
def preStrip (U : UnicodeModel) (dt : Doctype) (s : List Char) : List Char :=
  collapseHyphens (replaceInvalid (modeAllowed U dt)
    ((U.nfkd s).filter (fun c => !isCombiningMark c)))

/-- The whole sanitization chain of `clean` up to and including
`.toLowerCase()`: NFKD, removal of combining diacritical marks, replacement
of disallowed code points by hyphens, hyphen-run collapsing, stripping of
the ends, lowercasing.  This is the local `cleanedHtmlId` of the source. -/
def cleanCore (U : UnicodeModel) (dt : Doctype) (s : List Char) : List Char :=
  U.toLower (stripEnds (preStrip U dt s))

/-- `clean(uncleanedId, doctype, fallback, separator)` from
`src/functions.js`: sanitize, return the fallback verbatim if the result is
empty, and in legacy documents prefix `fallback + separator` when the first
character is not an ASCII letter. -/
def clean (U : UnicodeModel) (uncleanedId : List Char) (doctype : Doctype)
    (fallback separator : List Char) : List Char :=
  match cleanCore U doctype uncleanedId with
  | [] => fallback
  | c :: rest =>
    if !isHtml5 doctype && !isAsciiLetter c then fallback ++ separator ++ (c :: rest)
    else c :: rest

/-- Lowercasing of a single ASCII character, the restriction of
`String.prototype.toLowerCase` to the ASCII range. -/
def asciiToLower (c : Char) : Char :=
  if 65 ≤ c.toNat && c.toNat ≤ 90 then Char.ofNat (c.toNat + 32) else c

/-- Reading the code point back out of `Char.ofNat` below the surrogate
range. -/
theorem toNat_charOfNat (n : Nat) (h : n < 55296) : (Char.ofNat n).toNat = n := by
  simp [Char.ofNat, Nat.isValidChar, Char.toNat, Char.ofNatAux, UInt32.toNat,
    BitVec.toNat_ofNatLt, h]

theorem allowedLegacy_asciiToLower (c : Char) (h : allowedLegacy c = true) :
    allowedLegacy (asciiToLower c) = true := by
  unfold asciiToLower
  by_cases hu : (65 ≤ c.toNat && c.toNat ≤ 90) = true
  · rw [if_pos hu]
    simp only [Bool.and_eq_true, decide_eq_true_eq] at hu
    have hn : (Char.ofNat (c.toNat + 32)).toNat = c.toNat + 32 :=
      toNat_charOfNat _ (by omega)
    have hlet : isAsciiLetter (Char.ofNat (c.toNat + 32)) = true := by
      simp only [isAsciiLetter, hn, Bool.or_eq_true, Bool.and_eq_true, decide_eq_true_eq]
      left; omega
    simp [allowedLegacy, hlet]
  · rw [if_neg hu]; exact h

/-- A concrete `UnicodeModel`: identity NFKD, ASCII letter data, no marks,
ASCII lowercasing.  It agrees with the JavaScript runtime on ASCII-only
inputs and satisfies every law of the abstraction; it serves to evaluate
the embedded functions on concrete inputs. -/
def asciiModel : UnicodeModel where
  nfkd := id
  isLetter := isAsciiLetter
  isMark := fun _ => false
  toLower := List.map asciiToLower
  lower_nil := rfl
  lower_strict := by
    intro s hs c hc
    obtain ⟨x, hx, hxc⟩ := List.mem_map.mp hc
    subst hxc
    have hx2 := hs x hx
    simp only [Bool.or_false] at hx2 ⊢
    have : allowedLegacy x = true := by
      simp only [allowedLegacy]
      simpa using hx2
    have h2 := allowedLegacy_asciiToLower x this
    simp only [allowedLegacy] at h2
    simpa using h2
  lower_legacy := by
    intro s hs c hc
    obtain ⟨x, hx, hxc⟩ := List.mem_map.mp hc
    subst hxc
    exact allowedLegacy_asciiToLower x (hs x hx)

/-- An HTML5 doctype (used for concrete evaluations). -/
def html5Doctype : Doctype where
  name := "html".data
  publicId := []
  systemId := []

/-- An HTML4 (legacy) doctype (used for concrete evaluations). -/
def html4Doctype : Doctype where
  name := "html".data
  publicId := "-//W3C//DTD HTML 4.01 Transitional//EN".data
  systemId := "http://www.w3.org/TR/html4/loose.dtd".data

/-- The validation regex for the `fallback` option
(`^[a-zA-Z][a-zA-Z0-9_-]*$` in `InputIdOptions`): one ASCII letter followed
by ASCII letters, digits, underscores and hyphens. -/
def validFallback : List Char → Bool
  | [] => false
  | c :: rest =>
    isAsciiLetter c && rest.all (fun x => isAsciiLetter x || isAsciiDigit x || x == '_' || x == '-')

/-- The validation of the `separator` option in `InputIdOptions`:
membership in `['_', '-', '']`. -/
def validSeparator (s : List Char) : Bool :=
  s == ['_'] || s == ['-'] || s.isEmpty

theorem mem_of_mem_dropWhile {p : Char → Bool} {l : List Char} {c : Char}
    (h : c ∈ l.dropWhile p) : c ∈ l :=
  (List.dropWhile_sublist p).subset h

theorem mem_of_mem_dropLead {l : List Char} {c : Char} (h : c ∈ dropLead l) : c ∈ l := by
  cases l with
  | nil => simp [dropLead] at h
  | cons a rest =>
    simp only [dropLead] at h
    by_cases ha : (a == '-') = true
    · rw [if_pos ha] at h
      exact mem_of_mem_dropWhile h
    · rw [if_neg ha] at h
      by_cases hb : (a == '_') = true
      · rw [if_pos hb] at h
        exact List.mem_cons_of_mem a h
      · rwa [if_neg hb] at h

theorem mem_of_mem_stripEnds {l : List Char} {c : Char} (h : c ∈ stripEnds l) : c ∈ l := by
  unfold stripEnds at h
  rw [List.mem_reverse] at h
  have h2 := mem_of_mem_dropLead h
  rw [List.mem_reverse] at h2
  exact mem_of_mem_dropLead h2

theorem mem_of_mem_collapseHyphens :
    ∀ {l : List Char} {c : Char}, c ∈ collapseHyphens l → c ∈ l := by
  intro l
  induction l with
  | nil => intro c h; simp [collapseHyphens] at h
  | cons a rest ih =>
    intro c h
    cases rest with
    | nil => simpa [collapseHyphens] using h
    | cons b rest2 =>
      rw [collapseHyphens] at h
      by_cases hab : (a == '-' && b == '-') = true
      · rw [if_pos hab] at h
        exact List.mem_cons_of_mem a (ih h)
      · rw [if_neg hab] at h
        rcases List.mem_cons.mp h with rfl | h2
        · exact List.mem_cons_self c (b :: rest2)
        · exact List.mem_cons_of_mem a (ih h2)

theorem replaceInvalid_allowed {allowed : Char → Bool} (hd : allowed '-' = true)
    (s : List Char) : ∀ c ∈ replaceInvalid allowed s, allowed c = true := by
  intro c hc
  obtain ⟨x, _, hxc⟩ := List.mem_map.mp hc
  by_cases hx : allowed x = true
  · rw [if_pos hx] at hxc; rwa [← hxc]
  · rw [if_neg hx] at hxc; rwa [← hxc]

theorem modeAllowed_hyphen (U : UnicodeModel) (dt : Doctype) :
    modeAllowed U dt '-' = true := by
  unfold modeAllowed
  by_cases h : isHtml5 dt = true
  · rw [if_pos h]; simp
  · rw [if_neg h]; simp [allowedLegacy]

/-- Every character surviving the pipeline up to `cleanCore` lies in the
mode-specific allowed class. -/
theorem cleanCore_allowed (U : UnicodeModel) (dt : Doctype) (s : List Char) :
    ∀ c ∈ cleanCore U dt s, modeAllowed U dt c = true := by
  have hpre : ∀ c ∈ stripEnds (preStrip U dt s), modeAllowed U dt c = true := by
    intro c hc
    exact replaceInvalid_allowed (modeAllowed_hyphen U dt) _ c
      (mem_of_mem_collapseHyphens (mem_of_mem_stripEnds hc))
  unfold cleanCore
  by_cases h5 : isHtml5 dt = true
  · have := U.lower_strict (stripEnds (preStrip U dt s))
      (by intro c hc; have := hpre c hc; rwa [modeAllowed, if_pos h5] at this)
    intro c hc
    rw [modeAllowed, if_pos h5]
    exact this c hc
  · have := U.lower_legacy (stripEnds (preStrip U dt s))
      (by intro c hc; have := hpre c hc; rwa [modeAllowed, if_neg h5] at this)
    intro c hc
    rw [modeAllowed, if_neg h5]
    exact this c hc

theorem validFallback_allowed {f : List Char} (hf : validFallback f = true) :
    ∀ c ∈ f, allowedLegacy c = true := by
  cases f with
  | nil => simp [validFallback] at hf
  | cons a rest =>
    unfold validFallback at hf
    rw [Bool.and_eq_true] at hf
    intro c hc
    rcases List.mem_cons.mp hc with rfl | h2
    · simp [allowedLegacy, hf.1]
    · have := List.all_eq_true.mp hf.2 c h2
      simp only [Bool.or_eq_true] at this
      rcases this with ((h | h) | h) | h <;> simp [allowedLegacy, h]

theorem validSeparator_allowed {s : List Char} (hs : validSeparator s = true) :
    ∀ c ∈ s, allowedLegacy c = true := by
  unfold validSeparator at hs
  simp only [Bool.or_eq_true, beq_iff_eq, List.isEmpty_iff] at hs
  rcases hs with (rfl | rfl) | rfl
  · intro c hc; simp only [List.mem_singleton] at hc; subst hc; decide
  · intro c hc; simp only [List.mem_singleton] at hc; subst hc; decide
  · intro c hc; cases hc

theorem allowedLegacy_modeAllowed (U : UnicodeModel) {dt : Doctype} {c : Char}
    (h5 : isHtml5 dt = false) (h : allowedLegacy c = true) :
    modeAllowed U dt c = true := by
  unfold modeAllowed
  rw [h5]
  simpa using h

/-- Equation of `clean` on the empty-sanitization branch. -/
theorem clean_eq_of_core_nil {U : UnicodeModel} {s : List Char} {dt : Doctype}
    (fallback sep : List Char) (h : cleanCore U dt s = []) :
    clean U s dt fallback sep = fallback := by
  unfold clean
  rw [h]

/-- Equation of `clean` on the non-empty-sanitization branch. -/
theorem clean_eq_of_core_cons {U : UnicodeModel} {s : List Char} {dt : Doctype}
    (fallback sep : List Char) {c : Char} {rest : List Char}
    (h : cleanCore U dt s = c :: rest) :
    clean U s dt fallback sep =
      if !isHtml5 dt && !isAsciiLetter c then fallback ++ sep ++ (c :: rest)
      else c :: rest := by
  unfold clean
  rw [h]

/-- C2: for every input string, document mode, valid fallback and valid
separator, either the fallback path is taken (the result is the fallback,
returned verbatim), or every code point of the string returned by `clean`
is a member of the mode-specific allowed set (digits, letters, marks,
underscore, hyphen for HTML5; ASCII digits, letters, underscore, hyphen
otherwise). -/
theorem clean_projects_onto_allowed_set (U : UnicodeModel) (s : List Char) (dt : Doctype)
    (fallback sep : List Char)
    (hf : validFallback fallback = true) (hs : validSeparator sep = true) :
    clean U s dt fallback sep = fallback ∨
      ∀ c ∈ clean U s dt fallback sep, modeAllowed U dt c = true := by
  have hall := cleanCore_allowed U dt s
  cases hm : cleanCore U dt s with
  | nil => exact Or.inl (clean_eq_of_core_nil fallback sep hm)
  | cons c0 rest =>
    right
    rw [hm] at hall
    rw [clean_eq_of_core_cons fallback sep hm]
    by_cases hcond : (!isHtml5 dt && !isAsciiLetter c0) = true
    · rw [if_pos hcond]
      have h5 : isHtml5 dt = false := by
        cases hb : isHtml5 dt
        · rfl
        · rw [hb] at hcond; simp at hcond
      intro c hc
      rcases List.mem_append.mp hc with hcf | hcr
      · rcases List.mem_append.mp hcf with hcf2 | hcs
        · exact allowedLegacy_modeAllowed U h5 (validFallback_allowed hf c hcf2)
        · exact allowedLegacy_modeAllowed U h5 (validSeparator_allowed hs c hcs)
      · exact hall c hcr
    · rw [if_neg hcond]
      exact hall

theorem clean_projects_onto_allowed_set_witness :
    validFallback ("f".data) = true ∧ validSeparator ("_".data) = true ∧
      (clean asciiModel ("a!b".data) html5Doctype ("f".data) ("_".data) = "f".data ∨
        ∀ c ∈ clean asciiModel ("a!b".data) html5Doctype ("f".data) ("_".data),
          modeAllowed asciiModel html5Doctype c = true) :=
  ⟨by decide, by decide,
    clean_projects_onto_allowed_set asciiModel ("a!b".data) html5Doctype ("f".data) ("_".data)
      (by decide) (by decide)⟩

/-- C3: for a candidate whose cleaned result is non-empty, in legacy mode
`clean` prefixes `fallback + separator` exactly when the first character of
the result is not an ASCII letter, while in HTML5 (strict) mode the
first-character check is skipped and the non-empty result is returned
unchanged, never prefixed. -/
theorem clean_legacy_first_char_rule (U : UnicodeModel) (cand : List Char) (dt : Doctype)
    (fallback sep : List Char) (c : Char) (rest : List Char)
    (h : cleanCore U dt cand = c :: rest) :
    (isHtml5 dt = false → isAsciiLetter c = false →
        clean U cand dt fallback sep = fallback ++ sep ++ (c :: rest)) ∧
    (isHtml5 dt = false → isAsciiLetter c = true →
        clean U cand dt fallback sep = c :: rest) ∧
    (isHtml5 dt = true → clean U cand dt fallback sep = c :: rest) := by
  rw [clean_eq_of_core_cons fallback sep h]
  refine ⟨?_, ?_, ?_⟩
  · intro h5 hl; simp [h5, hl]
  · intro h5 hl; simp [h5, hl]
  · intro h5; simp [h5]

theorem clean_legacy_first_char_rule_witness :
    cleanCore asciiModel html4Doctype ("1abc".data) = '1' :: ("abc".data) ∧
      ((isHtml5 html4Doctype = false → isAsciiLetter '1' = false →
          clean asciiModel ("1abc".data) html4Doctype ("f".data) ("_".data) =
            ("f".data) ++ ("_".data) ++ ('1' :: ("abc".data))) ∧
        (isHtml5 html4Doctype = false → isAsciiLetter '1' = true →
          clean asciiModel ("1abc".data) html4Doctype ("f".data) ("_".data) =
            '1' :: ("abc".data)) ∧
        (isHtml5 html4Doctype = true →
          clean asciiModel ("1abc".data) html4Doctype ("f".data) ("_".data) =
            '1' :: ("abc".data))) :=
  ⟨by decide,
    clean_legacy_first_char_rule asciiModel ("1abc".data) html4Doctype
      ("f".data) ("_".data) '1' ("abc".data) (by decide)⟩

/-- C6 counterexample: the candidate made of three underscores normalizes
(after NFKD, mark stripping, replacement and collapsing) to a string made
only of hyphens and underscores, yet the result of the stripping step is
not empty (the single pass removes at most one underscore per side), and
`clean` does not return the fallback. -/
theorem clean_only_separators_not_fallback :
    (∀ c ∈ preStrip asciiModel html5Doctype ("___".data), c = '-' ∨ c = '_') ∧
    stripEnds (preStrip asciiModel html5Doctype ("___".data)) ≠ [] ∧
    clean asciiModel ("___".data) html5Doctype ("f".data) ("_".data) ≠ "f".data := by
  decide

theorem stripEnds_small (l : List Char) (h1 : ∀ c ∈ l, c = '-' ∨ c = '_')
    (h2 : l.length ≤ 2) : stripEnds l = [] := by
  rcases l with _ | ⟨a, _ | ⟨b, _ | ⟨c, t⟩⟩⟩
  · rfl
  · rcases h1 a (by simp) with rfl | rfl <;> decide
  · rcases h1 a (by simp) with rfl | rfl <;> rcases h1 b (by simp) with rfl | rfl <;> decide
  · simp only [List.length_cons] at h2
    omega

/-- C6 amended: if a candidate normalizes (after NFKD, mark stripping,
replacement and collapsing) to a hyphen/underscore-only string of length at
most two, the stripping step yields the empty string and `clean` returns
the fallback verbatim.  (Longer hyphen/underscore-only normal forms survive
stripping, since the single-pass strip removes at most one underscore per
side.) -/
theorem clean_small_only_separators_fallback (U : UnicodeModel) (cand : List Char)
    (dt : Doctype) (fallback sep : List Char)
    (h1 : ∀ c ∈ preStrip U dt cand, c = '-' ∨ c = '_')
    (h2 : (preStrip U dt cand).length ≤ 2) :
    stripEnds (preStrip U dt cand) = [] ∧ clean U cand dt fallback sep = fallback := by
  have hstrip := stripEnds_small (preStrip U dt cand) h1 h2
  refine ⟨hstrip, ?_⟩
  have hcc : cleanCore U dt cand = [] := by
    unfold cleanCore
    rw [hstrip]
    exact U.lower_nil
  exact clean_eq_of_core_nil fallback sep hcc

theorem clean_small_only_separators_fallback_witness :
    (∀ c ∈ preStrip asciiModel html5Doctype ("!!".data), c = '-' ∨ c = '_') ∧
    (preStrip asciiModel html5Doctype ("!!".data)).length ≤ 2 ∧
    (stripEnds (preStrip asciiModel html5Doctype ("!!".data)) = [] ∧
      clean asciiModel ("!!".data) html5Doctype ("f".data) ("_".data) = "f".data) :=
  ⟨by decide, by decide,
    clean_small_only_separators_fallback asciiModel ("!!".data) html5Doctype
      ("f".data) ("_".data) (by decide) (by decide)⟩

/-- Worker for the decimal digits of a natural number, structurally
recursive on a fuel argument (any fuel at least the number itself is
enough, since dividing by ten strictly decreases). -/
def natDigitsAux : Nat → Nat → List Nat
  | 0, n => [n % 10]
  | fuel + 1, n => if n < 10 then [n] else natDigitsAux fuel (n / 10) ++ [n % 10]

/-- The decimal digits of a natural number, most significant first (the
digits produced by the JavaScript template interpolation of a number). -/
def natDigits (n : Nat) : List Nat :=
  natDigitsAux n n

/-- The decimal value of a digit list, most significant first. -/
def valN (l : List Nat) : Nat :=
  l.foldl (fun a d => a * 10 + d) 0

theorem valN_append (l : List Nat) (d : Nat) : valN (l ++ [d]) = valN l * 10 + d := by
  simp [valN, List.foldl_append]

theorem natDigitsAux_spec (fuel : Nat) : ∀ n, n ≤ fuel →
    valN (natDigitsAux fuel n) = n ∧ (∀ d ∈ natDigitsAux fuel n, d < 10) ∧
      natDigitsAux fuel n ≠ [] := by
  induction fuel with
  | zero =>
    intro n hn
    obtain rfl : n = 0 := by omega
    refine ⟨by simp [natDigitsAux, valN], ?_, by simp [natDigitsAux]⟩
    intro d hd
    simp [natDigitsAux] at hd
    omega
  | succ f ih =>
    intro n hn
    by_cases h : n < 10
    · simp only [natDigitsAux, if_pos h]
      refine ⟨by simp [valN], ?_, by simp⟩
      intro d hd
      simp at hd
      omega
    · simp only [natDigitsAux, if_neg h]
      have hdiv : n / 10 ≤ f := by omega
      obtain ⟨h1, h2, h3⟩ := ih (n / 10) hdiv
      refine ⟨?_, ?_, by simp⟩
      · rw [valN_append, h1]
        omega
      · intro d hd
        rcases List.mem_append.mp hd with hl | hr
        · exact h2 d hl
        · simp at hr
          omega

theorem valN_natDigits (n : Nat) : valN (natDigits n) = n :=
  (natDigitsAux_spec n n (le_refl n)).1

theorem natDigits_injective {m n : Nat} (h : natDigits m = natDigits n) : m = n := by
  have hm := valN_natDigits m
  rw [h, valN_natDigits] at hm
  exact hm.symm

theorem natDigits_ne_nil (n : Nat) : natDigits n ≠ [] :=
  (natDigitsAux_spec n n (le_refl n)).2.2

theorem natDigits_lt_ten (n : Nat) : ∀ d ∈ natDigits n, d < 10 :=
  (natDigitsAux_spec n n (le_refl n)).2.1

/-- The decimal digit characters. -/
def digitChar (d : Nat) : Char :=
  if d = 0 then '0' else if d = 1 then '1' else if d = 2 then '2' else if d = 3 then '3'
  else if d = 4 then '4' else if d = 5 then '5' else if d = 6 then '6' else if d = 7 then '7'
  else if d = 8 then '8' else '9'

/-- The decimal string of a natural number, as produced by the JavaScript
template interpolation of `attemptNumber`. -/
def natToStr (n : Nat) : List Char :=
  (natDigits n).map digitChar

theorem digitChar_inj : ∀ d1 < 10, ∀ d2 < 10, digitChar d1 = digitChar d2 → d1 = d2 := by
  decide

theorem map_digitChar_inj :
    ∀ (l1 l2 : List Nat), (∀ d ∈ l1, d < 10) → (∀ d ∈ l2, d < 10) →
      l1.map digitChar = l2.map digitChar → l1 = l2 := by
  intro l1
  induction l1 with
  | nil =>
    intro l2 _ _ h
    cases l2 with
    | nil => rfl
    | cons b t2 => simp at h
  | cons a t ih =>
    intro l2 h1 h2 h
    cases l2 with
    | nil => simp at h
    | cons b t2 =>
      simp only [List.map_cons, List.cons.injEq] at h
      have ha := digitChar_inj a (h1 a (by simp)) b (h2 b (by simp)) h.1
      subst ha
      rw [ih t2 (fun d hd => h1 d (by simp [hd])) (fun d hd => h2 d (by simp [hd])) h.2]

theorem natToStr_injective {m n : Nat} (h : natToStr m = natToStr n) : m = n :=
  natDigits_injective
    (map_digitChar_inj (natDigits m) (natDigits n) (natDigits_lt_ten m) (natDigits_lt_ten n) h)

theorem natToStr_ne_nil (n : Nat) : natToStr n ≠ [] := by
  unfold natToStr
  simp [natDigits_ne_nil]

/-- The view of an HTML document used by `generateUniqueFromBaseId`: its
doctype and its live `getElementById` lookup.  Elements are identified by
a natural number standing for the JavaScript object identity. -/
structure Doc where
  doctype : Doctype
  getElementById : List Char → Option Nat

/-- The `node` argument of `generateUniqueFromBaseId`: either an element of
the document (compared against the lookup result by object identity) or
the document itself (in the source, the case `node.ownerDocument` is absent
and `node` is the document; the document is never returned by
`getElementById`, so no comparison succeeds). -/
inductive NodeRef where
  | doc : NodeRef
  | elem : Nat → NodeRef
deriving DecidableEq

/-- The loop exit test of `generateUniqueFromBaseId`:
`!elementWithId || elementWithId === node`. -/
def stopsAt (d : Doc) (node : NodeRef) (idAttempt : List Char) : Bool :=
  match d.getElementById idAttempt with
  | none => true
  | some e => NodeRef.elem e == node

/-- The retry loop of `generateUniqueFromBaseId`.  The JavaScript loop is
unbounded; it is modelled with an explicit fuel, `none` meaning that the
loop did not exit within `fuel` iterations.  At each iteration the current
`idAttempt` is probed; on a collision the next attempt is
`cleanedBaseId + separator + attemptNumber` with the counter incremented. -/
def resolveAux (d : Doc) (node : NodeRef) (base sep : List Char) :
    Nat → List Char → Nat → Option (List Char)
  | 0, _, _ => none
  | fuel + 1, idAttempt, attemptNumber =>
    if stopsAt d node idAttempt then some idAttempt
    else resolveAux d node base sep fuel (base ++ sep ++ natToStr attemptNumber) (attemptNumber + 1)

/-- `generateUniqueFromBaseId(baseId, node, fallback, separator)` from
`src/functions.js`: sanitize the base with `clean` against the owner
document's doctype, then loop from the cleaned base with counter 1.  The
owner document (`node.ownerDocument || node`) is the explicit `d`
argument, and `node` is the reference compared against lookup results. -/
def generateUniqueFromBaseId (U : UnicodeModel) (fuel : Nat) (d : Doc) (node : NodeRef)
    (baseId fallback separator : List Char) : Option (List Char) :=
  resolveAux d node (clean U baseId d.doctype fallback separator) separator fuel
    (clean U baseId d.doctype fallback separator) 1

/-- The sequence of identifiers probed by the loop: the cleaned base first,
then `base + separator + k` for k = 1, 2, ... -/
def attemptAt (base sep : List Char) : Nat → List Char
  | 0 => base
  | n + 1 => base ++ sep ++ natToStr (n + 1)

/-- Assigning the identifier `id` to element `e` in the document: the
lookup afterwards answers `e` for `id` and is unchanged elsewhere. -/
def updateDoc (d : Doc) (id : List Char) (e : Nat) : Doc :=
  { d with getElementById := fun s => if s = id then some e else d.getElementById s }

/-- N entities requesting an identifier for the same base in sequence:
each entity runs `generateUniqueFromBaseId` with itself as the node, and
its resulting identifier is assigned (takes effect) before the next
request. -/
def runSequence (U : UnicodeModel) (fuel : Nat) (baseId fallback sep : List Char) :
    Doc → List Nat → List (Option (List Char))
  | _, [] => []
  | d, e :: es =>
    match generateUniqueFromBaseId U fuel d (NodeRef.elem e) baseId fallback sep with
    | some id => some id :: runSequence U fuel baseId fallback sep (updateDoc d id e) es
    | none => none :: runSequence U fuel baseId fallback sep d es

theorem attemptAt_injective (base sep : List Char) :
    ∀ i j, attemptAt base sep i = attemptAt base sep j → i = j := by
  have hlen : ∀ j : Nat, base ≠ base ++ sep ++ natToStr (j + 1) := by
    intro j h
    have := congrArg List.length h
    simp only [List.length_append] at this
    have hpos : 0 < (natToStr (j + 1)).length :=
      List.length_pos.mpr (natToStr_ne_nil (j + 1))
    omega
  intro i j h
  cases i with
  | zero =>
    cases j with
    | zero => rfl
    | succ j => exact absurd h (hlen j)
  | succ i =>
    cases j with
    | zero => exact absurd h.symm (hlen i)
    | succ j =>
      have h2 : natToStr (i + 1) = natToStr (j + 1) :=
        List.append_cancel_left h
      have := natToStr_injective h2
      omega

theorem stopsAt_of_none {d : Doc} {node : NodeRef} {a : List Char}
    (h : d.getElementById a = none) : stopsAt d node a = true := by
  unfold stopsAt
  rw [h]

theorem stopsAt_false_of_collision {d : Doc} {node : NodeRef} {a : List Char} {e : Nat}
    (h : d.getElementById a = some e) (hne : NodeRef.elem e ≠ node) :
    stopsAt d node a = false := by
  unfold stopsAt
  rw [h]
  simpa using hne

/-- If the attempts with index below `k` all collide with elements other
than the node and the loop may stop at attempt `k`, the loop started at
attempt `i` with enough fuel returns attempt `k`. -/
theorem resolveAux_reaches (d : Doc) (node : NodeRef) (base sep : List Char) (k : Nat)
    (hocc : ∀ j, j < k → stopsAt d node (attemptAt base sep j) = false)
    (hstop : stopsAt d node (attemptAt base sep k) = true) :
    ∀ fuel i, i ≤ k → k + 1 ≤ i + fuel →
      resolveAux d node base sep fuel (attemptAt base sep i) (i + 1) =
        some (attemptAt base sep k) := by
  intro fuel
  induction fuel with
  | zero => intro i h1 h2; omega
  | succ f ih =>
    intro i h1 h2
    rw [resolveAux]
    by_cases hik : i = k
    · subst hik
      rw [if_pos hstop]
    · have hilt : i < k := by omega
      rw [if_neg (by simp [hocc i hilt])]
      exact ih (i + 1) (by omega) (by omega)

theorem runSequence_cons_some {U : UnicodeModel} {fuel : Nat}
    {baseId fallback sep : List Char} {d : Doc} {e : Nat} {es : List Nat} {id : List Char}
    (h : generateUniqueFromBaseId U fuel d (NodeRef.elem e) baseId fallback sep = some id) :
    runSequence U fuel baseId fallback sep d (e :: es) =
      some id :: runSequence U fuel baseId fallback sep (updateDoc d id e) es := by
  rw [runSequence, h]

/-- Sequential generation, generalized over the entities already assigned:
if the document holds exactly the already-processed entities on the attempt
sequence (the j-th attempt is held by the j-th processed entity and the
later attempts are free), the remaining entities receive the subsequent
attempts in order. -/
theorem runSequence_spec (U : UnicodeModel) (fuel : Nat) (baseId fallback sep : List Char) :
    ∀ (todo done : List Nat) (d : Doc) (base : List Char),
      clean U baseId d.doctype fallback sep = base →
      (done ++ todo).Nodup →
      (∀ j, d.getElementById (attemptAt base sep j) = done[j]?) →
      done.length + todo.length ≤ fuel →
      runSequence U fuel baseId fallback sep d todo =
        (List.range todo.length).map (fun k => some (attemptAt base sep (done.length + k))) := by
  intro todo
  induction todo with
  | nil =>
    intro done d base hbase hnd hdoc hfuel
    simp [runSequence]
  | cons e todo2 ih =>
    intro done d base hbase hnd hdoc hfuel
    have hdisj : List.Disjoint done (e :: todo2) := (List.nodup_append.mp hnd).2.2
    have hnotin : e ∉ done := fun hin => hdisj hin (List.mem_cons_self e todo2)
    have hocc : ∀ j, j < done.length →
        stopsAt d (NodeRef.elem e) (attemptAt base sep j) = false := by
      intro j hj
      have hje : d.getElementById (attemptAt base sep j) = some done[j] := by
        rw [hdoc j, List.getElem?_eq_getElem hj]
      refine stopsAt_false_of_collision hje ?_
      intro hcontr
      have heq : done[j] = e := by injection hcontr
      exact hnotin (heq ▸ List.getElem_mem hj)
    have hstop : stopsAt d (NodeRef.elem e) (attemptAt base sep done.length) = true := by
      apply stopsAt_of_none
      rw [hdoc done.length]
      exact List.getElem?_eq_none (le_refl _)
    have hfuel2 : done.length + todo2.length + 1 ≤ fuel := by
      simp only [List.length_cons] at hfuel
      omega
    have hres : generateUniqueFromBaseId U fuel d (NodeRef.elem e) baseId fallback sep =
        some (attemptAt base sep done.length) := by
      unfold generateUniqueFromBaseId
      rw [hbase]
      exact resolveAux_reaches d (NodeRef.elem e) base sep done.length hocc hstop fuel 0
        (by omega) (by omega)
    rw [runSequence_cons_some hres]
    have hbase2 :
        clean U baseId (updateDoc d (attemptAt base sep done.length) e).doctype fallback sep
          = base := hbase
    have hnd2 : ((done ++ [e]) ++ todo2).Nodup := by
      rw [List.append_assoc]
      simpa using hnd
    have hdoc2 : ∀ j,
        (updateDoc d (attemptAt base sep done.length) e).getElementById (attemptAt base sep j)
          = (done ++ [e])[j]? := by
      intro j
      show (if attemptAt base sep j = attemptAt base sep done.length then some e
        else d.getElementById (attemptAt base sep j)) = (done ++ [e])[j]?
      by_cases hj : j = done.length
      · subst hj
        rw [if_pos rfl, List.getElem?_concat_length]
      · rw [if_neg (fun hcontr => hj (attemptAt_injective base sep j done.length hcontr))]
        rw [hdoc j, List.getElem?_append]
        by_cases hlt : j < done.length
        · rw [if_pos hlt]
        · rw [if_neg hlt, List.getElem?_eq_none (by omega),
            List.getElem?_eq_none (by simp only [List.length_singleton]; omega)]
    have hfuel3 : (done ++ [e]).length + todo2.length ≤ fuel := by
      simp only [List.length_append, List.length_singleton]
      omega
    rw [ih (done ++ [e]) (updateDoc d (attemptAt base sep done.length) e) base
      hbase2 hnd2 hdoc2 hfuel3]
    show _ = (List.range (todo2.length + 1)).map
      (fun k => some (attemptAt base sep (done.length + k)))
    rw [List.range_succ_eq_map, List.map_cons, List.map_map]
    congr 1
    refine List.map_congr_left fun a ha => ?_
    have hx : (done ++ [e]).length + a = done.length + (a + 1) := by
      simp only [List.length_append, List.length_singleton]
      omega
    rw [hx]
    rfl

/-- C1: against a document in which no element holds any identifier of the
attempt sequence derived from the cleaned base, N pairwise-distinct
entities requesting an identifier for the same base in sequence (each
assignment taking effect before the next request) receive exactly
`base`, `base + separator + 1`, `base + separator + 2`, ...: the k-th
(0-indexed) entity receives `base` for k = 0 and `base + separator + k`
otherwise, the suffixes increasing by one from 1 with no gaps. -/
theorem runSequence_monotone (U : UnicodeModel) (fuel : Nat)
    (baseId fallback sep : List Char) (d : Doc) (es : List Nat)
    (hnd : es.Nodup)
    (hfree : ∀ j, d.getElementById
      (attemptAt (clean U baseId d.doctype fallback sep) sep j) = none)
    (hfuel : es.length ≤ fuel) :
    runSequence U fuel baseId fallback sep d es =
      (List.range es.length).map
        (fun k => some (attemptAt (clean U baseId d.doctype fallback sep) sep k)) := by
  have h := runSequence_spec U fuel baseId fallback sep es [] d
    (clean U baseId d.doctype fallback sep) rfl (by simpa using hnd)
    (by intro j; rw [hfree j]; simp) (by simpa using hfuel)
  simpa using h

/-- The empty document: an HTML5 doctype and no elements. -/
def emptyDoc : Doc where
  doctype := html5Doctype
  getElementById := fun _ => none

theorem runSequence_monotone_witness :
    ([10, 20, 30] : List Nat).Nodup ∧
    runSequence asciiModel 3 ("name".data) ("f".data) ("_".data) emptyDoc [10, 20, 30] =
      (List.range 3).map
        (fun k => some (attemptAt
          (clean asciiModel ("name".data) emptyDoc.doctype ("f".data) ("_".data))
          ("_".data) k)) :=
  ⟨by decide,
    runSequence_monotone asciiModel 3 ("name".data) ("f".data) ("_".data) emptyDoc
      [10, 20, 30] (by decide) (fun j => rfl) (by decide)⟩

/-- A one-element document: an HTML5 doctype and the element 7 holding the
identifier "a". -/
def docWithA : Doc where
  doctype := html5Doctype
  getElementById := fun s => if s = "a".data then some 7 else none

/-- C4: when the element `e` already holds, in its document, the identifier
equal to the cleaned base, `generateUniqueFromBaseId` with `e` as the node
returns that same identifier unchanged: the loop exit test succeeds on the
very first attempt (the holder is the node itself), so no numeric suffix
is ever appended; the call does not modify the document, so repeating the
derivation for the same node yields the same identifier every time. -/
theorem generateUnique_self_identity (U : UnicodeModel) (fuel : Nat) (d : Doc) (e : Nat)
    (baseId fallback sep : List Char)
    (h : d.getElementById (clean U baseId d.doctype fallback sep) = some e)
    (hfuel : 1 ≤ fuel) :
    generateUniqueFromBaseId U fuel d (NodeRef.elem e) baseId fallback sep =
      some (clean U baseId d.doctype fallback sep) := by
  obtain ⟨f, rfl⟩ : ∃ f, fuel = f + 1 := ⟨fuel - 1, by omega⟩
  have hstop : stopsAt d (NodeRef.elem e) (clean U baseId d.doctype fallback sep) = true := by
    unfold stopsAt
    rw [h]
    simp
  unfold generateUniqueFromBaseId
  rw [resolveAux, if_pos hstop]

theorem generateUnique_self_identity_witness :
    docWithA.getElementById
        (clean asciiModel ("a".data) docWithA.doctype ("f".data) ("_".data)) = some 7 ∧
    generateUniqueFromBaseId asciiModel 1 docWithA (NodeRef.elem 7) ("a".data) ("f".data)
        ("_".data) =
      some (clean asciiModel ("a".data) docWithA.doctype ("f".data) ("_".data)) :=
  ⟨by decide,
    generateUnique_self_identity asciiModel 1 docWithA 7 ("a".data) ("f".data) ("_".data)
      (by decide) (by decide)⟩

theorem resolveAux_doc_free (d : Doc) (base sep : List Char) :
    ∀ fuel a n s, resolveAux d NodeRef.doc base sep fuel a n = some s →
      d.getElementById s = none := by
  intro fuel
  induction fuel with
  | zero => intro a n s h; simp [resolveAux] at h
  | succ f ih =>
    intro a n s h
    rw [resolveAux] at h
    by_cases hs : stopsAt d NodeRef.doc a = true
    · rw [if_pos hs] at h
      have ha : a = s := by injection h
      subst ha
      unfold stopsAt at hs
      cases he : d.getElementById a with
      | none => rfl
      | some e =>
        rw [he] at hs
        simp at hs
    · rw [if_neg hs] at h
      exact ih _ _ _ h

/-- C5: when the node passed to the resolver is the document itself rather
than an element, every element found by the lookup counts as a collision
(the comparison `elementWithId === node` can never succeed), so the loop
exits only on "no element found" and the returned identifier is held by no
element of the document at the time of the call. -/
theorem generateUnique_doc_owner_free (U : UnicodeModel) (fuel : Nat) (d : Doc)
    (baseId fallback sep s : List Char)
    (h : generateUniqueFromBaseId U fuel d NodeRef.doc baseId fallback sep = some s) :
    d.getElementById s = none :=
  resolveAux_doc_free d (clean U baseId d.doctype fallback sep) sep fuel
    (clean U baseId d.doctype fallback sep) 1 s h

theorem generateUnique_doc_owner_free_witness :
    generateUniqueFromBaseId asciiModel 2 docWithA NodeRef.doc ("a".data) ("f".data)
        ("_".data) = some ("a_1".data) ∧
    docWithA.getElementById ("a_1".data) = none :=
  ⟨by decide,
    generateUnique_doc_owner_free asciiModel 2 docWithA ("a".data) ("f".data) ("_".data)
      ("a_1".data) (by decide)⟩

/-- With enough fuel, the loop returns an answer as soon as some attempt
index admits the exit test (the loop may well stop even earlier). -/
theorem resolveAux_isSome (d : Doc) (node : NodeRef) (base sep : List Char) (k : Nat)
    (hstop : stopsAt d node (attemptAt base sep k) = true) :
    ∀ fuel i, i ≤ k → k + 1 ≤ i + fuel →
      ∃ r, resolveAux d node base sep fuel (attemptAt base sep i) (i + 1) = some r := by
  intro fuel
  induction fuel with
  | zero => intro i h1 h2; omega
  | succ f ih =>
    intro i h1 h2
    rw [resolveAux]
    by_cases hs : stopsAt d node (attemptAt base sep i) = true
    · rw [if_pos hs]
      exact ⟨_, rfl⟩
    · rw [if_neg hs]
      have hik : i ≠ k := fun hik => hs (hik ▸ hstop)
      exact ih (i + 1) (by omega) (by omega)

/-- If the document assigns elements to only finitely many identifiers
(all contained in the list `L`), some attempt among the first
`L.length + 1` is unassigned. -/
theorem exists_free_attempt (d : Doc) (base sep : List Char) (L : List (List Char))
    (hL : ∀ s, d.getElementById s ≠ none → s ∈ L) :
    ∃ k, k ≤ L.length ∧ d.getElementById (attemptAt base sep k) = none := by
  by_contra hcon
  push_neg at hcon
  have hsub : (Finset.range (L.length + 1)).image (attemptAt base sep) ⊆ L.toFinset := by
    intro s hs
    obtain ⟨k, hk, rfl⟩ := Finset.mem_image.mp hs
    rw [Finset.mem_range] at hk
    exact List.mem_toFinset.mpr (hL _ (hcon k (by omega)))
  have hinj : Set.InjOn (attemptAt base sep) (Finset.range (L.length + 1)) :=
    fun a _ b _ h => attemptAt_injective base sep a b h
  have h1 : ((Finset.range (L.length + 1)).image (attemptAt base sep)).card = L.length + 1 := by
    rw [Finset.card_image_of_injOn hinj, Finset.card_range]
  have h2 := Finset.card_le_card hsub
  have h3 := List.toFinset_card_le L
  omega

/-- C10: if the lookup behaves as a fixed function assigning elements to
only finitely many identifier strings, the retry loop terminates: the
attempted identifiers are pairwise distinct, so some attempt falls outside
the finite assigned set and a sufficiently large fuel makes the model
return an answer. -/
theorem generateUnique_terminates (U : UnicodeModel) (d : Doc) (node : NodeRef)
    (baseId fallback sep : List Char) (L : List (List Char))
    (hL : ∀ s, d.getElementById s ≠ none → s ∈ L) :
    (∀ i j, attemptAt (clean U baseId d.doctype fallback sep) sep i =
        attemptAt (clean U baseId d.doctype fallback sep) sep j → i = j) ∧
    ∃ fuel r, generateUniqueFromBaseId U fuel d node baseId fallback sep = some r := by
  refine ⟨attemptAt_injective _ _, ?_⟩
  obtain ⟨k, hk, hnone⟩ :=
    exists_free_attempt d (clean U baseId d.doctype fallback sep) sep L hL
  obtain ⟨r, hr⟩ := resolveAux_isSome d node (clean U baseId d.doctype fallback sep) sep k
    (stopsAt_of_none hnone) (k + 1) 0 (by omega) (by omega)
  exact ⟨k + 1, r, hr⟩

theorem generateUnique_terminates_witness :
    (∀ s, docWithA.getElementById s ≠ none → s ∈ [("a".data)]) ∧
    ((∀ i j, attemptAt (clean asciiModel ("a".data) docWithA.doctype ("f".data) ("_".data))
        ("_".data) i =
        attemptAt (clean asciiModel ("a".data) docWithA.doctype ("f".data) ("_".data))
          ("_".data) j → i = j) ∧
      ∃ fuel r, generateUniqueFromBaseId asciiModel fuel docWithA NodeRef.doc ("a".data)
        ("f".data) ("_".data) = some r) := by
  have hL : ∀ s, docWithA.getElementById s ≠ none → s ∈ [("a".data)] := by
    intro s h
    by_cases hs : s = "a".data
    · simp [hs]
    · exfalso
      apply h
      show (if s = "a".data then some 7 else none) = none
      rw [if_neg hs]
  exact ⟨hL, generateUnique_terminates asciiModel docWithA NodeRef.doc ("a".data)
    ("f".data) ("_".data) [("a".data)] hL⟩

/-- The element-level data read by the option getters of
`InputIdOptions`: the JavaScript object identity, whether the value is an
`HTMLElement`, and the `type`, `tagName`, `data-name` and `ownerDocument`
properties (`none` where the property is absent). -/
structure ElemInfo where
  ident : Nat
  isHTMLElement : Bool
  type : Option (List Char)
  tagName : Option (List Char)
  dataName : Option (List Char)
  ownerDocument : Option Doc

/-- A parent node as read by the enclosing-select walk of the `name`
getter: its `tagName` and `name` properties (`none` for an absent
property). -/
structure ParentInfo where
  tagName : Option (List Char)
  name : Option (List Char)

/-- The raw options object passed to the `InputId` constructor, recorded
as the property reads the getters perform on it; `none` marks an absent
(or falsy, where the source tests truthiness) property.  This covers both
a plain options object and the form `new InputId(element)` where the
argument is the element itself: there the fields are the element's own
properties — `options.element` is undefined (so `element` is `none`) and
`parentNode` is the element's real parent node, which the
enclosing-select walk of the `name` getter inspects.  The `prefix` option
is called `idPrefix` here (`prefix` is reserved in Lean); `formId` stands
for `options.form` with a truthy `id`. -/
structure RawOptions where
  element : Option ElemInfo := none
  name : Option (List Char) := none
  value : Option (List Char) := none
  type : Option (List Char) := none
  idPrefix : Option (List Char) := none
  formId : Option (List Char) := none
  separator : Option (List Char) := none
  fallback : Option (List Char) := none
  forceUniqueness : Option Bool := none
  ownerDocument : Option Doc := none
  parentNode : Option ParentInfo := none

/-- JavaScript string truthiness of an optional string: present and
non-empty. -/
def truthy : Option (List Char) → Bool
  | some s => !s.isEmpty
  | none => false

/-- The `element` getter of `InputIdOptions`: throws when a supplied
element is not an `HTMLElement`, otherwise resolves to the element or
null. -/
def getElement (o : RawOptions) : Except (List Char) (Option ElemInfo) :=
  match o.element with
  | none => Except.ok none
  | some e =>
    if e.isHTMLElement then Except.ok (some e)
    else Except.error ("element must be HTMLElement".data)

/-- The `type` getter: the `type` option when truthy, else the element's
`type` when truthy, else the element's lowercased `tagName` when truthy,
else null. -/
def getType (U : UnicodeModel) (o : RawOptions) : Except (List Char) (Option (List Char)) :=
  if truthy o.type then Except.ok o.type
  else
    match getElement o with
    | Except.error msg => Except.error msg
    | Except.ok none => Except.ok none
    | Except.ok (some el) =>
      if truthy el.type then Except.ok el.type
      else
        match el.tagName with
        | some tn => if tn.isEmpty then Except.ok none else Except.ok (some (U.toLower tn))
        | none => Except.ok none

/-- The outcome of running a piece of JavaScript that may throw or fail
to terminate: a returned value, a thrown error, or divergence. -/
inductive JsOutcome (α : Type) where
  | ok (val : α) : JsOutcome α
  | error (msg : List Char) : JsOutcome α
  | hang : JsOutcome α

/-- `getOptionSelectElement(optionElement)` from `src/functions.js`, as
called by the `name` getter on `this.options`.  The loop update re-reads
`optionElement.parentNode` instead of moving upward, so the outcome is
decided by the parent node alone: no (or falsy) parent — null; a parent
whose lowercased `tagName` is "select" — that parent; a parent without a
`tagName` — a TypeError from calling toLowerCase on undefined; any other
parent — the loop never terminates. -/
def getOptionSelectElement (U : UnicodeModel) (o : RawOptions) :
    JsOutcome (Option ParentInfo) :=
  match o.parentNode with
  | none => JsOutcome.ok none
  | some p =>
    match p.tagName with
    | none => JsOutcome.error ("cannot read toLowerCase of undefined".data)
    | some tn =>
      if U.toLower tn == ("select".data) then JsOutcome.ok (some p)
      else JsOutcome.hang

/-- The `name` getter: the `name` option when truthy, else the element's
`data-name` when truthy, else — when the resolved type is "option" — the
name of the select found by `getOptionSelectElement(this.options)` (null
when that walk finds nothing, a thrown error or divergence when the walk
throws or diverges), else null. -/
def getName (U : UnicodeModel) (o : RawOptions) : JsOutcome (Option (List Char)) :=
  if truthy o.name then JsOutcome.ok o.name
  else
    match getElement o with
    | Except.error msg => JsOutcome.error msg
    | Except.ok elOpt =>
      match (match elOpt with
              | some el => if truthy el.dataName then some el.dataName else none
              | none => none) with
      | some dn => JsOutcome.ok dn
      | none =>
        match getType U o with
        | Except.error msg => JsOutcome.error msg
        | Except.ok t =>
          if t == some ("option".data) then
            match getOptionSelectElement U o with
            | JsOutcome.error msg => JsOutcome.error msg
            | JsOutcome.hang => JsOutcome.hang
            | JsOutcome.ok (some sel) => JsOutcome.ok sel.name
            | JsOutcome.ok none => JsOutcome.ok none
          else JsOutcome.ok none

/-- The `value` getter: `options.value` when the property is present,
null otherwise. -/
def getValue (o : RawOptions) : Option (List Char) :=
  o.value

/-- The `ownerDocument` getter: the `ownerDocument` option when present,
else the element's `ownerDocument` when an element is present, else the
global `document`; throws when what results is not an `HTMLDocument`. -/
def getOwnerDocument (globalDoc : Option Doc) (o : RawOptions) : Except (List Char) Doc :=
  match getElement o with
  | Except.error msg => Except.error msg
  | Except.ok elOpt =>
    match o.ownerDocument with
    | some d => Except.ok d
    | none =>
      match (match elOpt with
              | some el => el.ownerDocument
              | none => globalDoc) with
      | some d => Except.ok d
      | none => Except.error ("ownerDocument must be HTMLDocument".data)

/-- The `prefix` getter: the `prefix` option when truthy, else the id of
the `form` option when truthy, else null. -/
def getPrefix (o : RawOptions) : Option (List Char) :=
  if truthy o.idPrefix then o.idPrefix
  else if truthy o.formId then o.formId
  else none

/-- The `separator` getter: "_" when the option is absent; a present value
must be one of "_", "-", "". -/
def getSeparator (o : RawOptions) : Except (List Char) (List Char) :=
  match o.separator with
  | none => Except.ok ("_".data)
  | some s =>
    if validSeparator s then Except.ok s
    else Except.error ("separator must be empty or underscore or hyphen".data)

/-- The `fallback` getter: "f" when the option is absent; a present value
must match the fallback validation regex. -/
def getFallback (o : RawOptions) : Except (List Char) (List Char) :=
  match o.fallback with
  | none => Except.ok ("f".data)
  | some s =>
    if validFallback s then Except.ok s
    else Except.error ("fallback is invalid".data)

/-- The `forceUniqueness` getter: an explicit option wins; otherwise true
exactly when an element is present or no name was resolved (so its
evaluation runs the name getter, inheriting any error or divergence of
the enclosing-select walk). -/
def getForceUniqueness (U : UnicodeModel) (o : RawOptions) : JsOutcome Bool :=
  match o.forceUniqueness with
  | some b => JsOutcome.ok b
  | none =>
    match getElement o with
    | Except.error msg => JsOutcome.error msg
    | Except.ok elOpt =>
      match getName U o with
      | JsOutcome.error msg => JsOutcome.error msg
      | JsOutcome.hang => JsOutcome.hang
      | JsOutcome.ok n => JsOutcome.ok (elOpt.isSome || !truthy n)

/-- The fields of an `InputId` instance after option resolution, as
assigned by the constructor. -/
structure InputIdState where
  element : Option ElemInfo
  fallback : List Char
  forceUniqueness : Bool
  name : Option (List Char)
  value : Option (List Char)
  ownerDocument : Doc
  idPrefix : Option (List Char)
  separator : List Char
  type : Option (List Char)

/-- The `InputId` constructor: resolve every option through
`InputIdOptions` in the source's assignment order, stopping at the first
validation error — or never returning, when the name resolution diverges
in the enclosing-select walk; on success the instance fields are set and
the instance is sealed with `_string = null`.  No identifier generation
happens here. -/
def mkInputId (U : UnicodeModel) (globalDoc : Option Doc) (o : RawOptions) :
    JsOutcome InputIdState :=
  match getElement o with
  | Except.error msg => JsOutcome.error msg
  | Except.ok element =>
    match getFallback o with
    | Except.error msg => JsOutcome.error msg
    | Except.ok fallback =>
      match getForceUniqueness U o with
      | JsOutcome.error msg => JsOutcome.error msg
      | JsOutcome.hang => JsOutcome.hang
      | JsOutcome.ok forceUniqueness =>
        match getName U o with
        | JsOutcome.error msg => JsOutcome.error msg
        | JsOutcome.hang => JsOutcome.hang
        | JsOutcome.ok name =>
          match getOwnerDocument globalDoc o with
          | Except.error msg => JsOutcome.error msg
          | Except.ok ownerDocument =>
            match getSeparator o with
            | Except.error msg => JsOutcome.error msg
            | Except.ok separator =>
              match getType U o with
              | Except.error msg => JsOutcome.error msg
              | Except.ok type =>
                JsOutcome.ok
                  { element, fallback, forceUniqueness, name,
                    value := getValue o, ownerDocument,
                    idPrefix := getPrefix o, separator, type }

/-- Whether a JavaScript outcome is a normally returned value. -/
def jsOutcomeOk {α : Type} : JsOutcome α → Bool
  | JsOutcome.ok _ => true
  | JsOutcome.error _ => false
  | JsOutcome.hang => false

/-- Whether a JavaScript outcome is divergence. -/
def jsOutcomeHang {α : Type} : JsOutcome α → Bool
  | JsOutcome.ok _ => false
  | JsOutcome.error _ => false
  | JsOutcome.hang => true

/-- The supplied element, if any, passes the `HTMLElement` check. -/
def elementOK (o : RawOptions) : Bool :=
  match o.element with
  | none => true
  | some e => e.isHTMLElement

/-- The supplied fallback, if any, passes the validation regex. -/
def fallbackOK (o : RawOptions) : Bool :=
  match o.fallback with
  | none => true
  | some f => validFallback f

/-- The supplied separator, if any, is one of the three permitted values. -/
def separatorOK (o : RawOptions) : Bool :=
  match o.separator with
  | none => true
  | some s => validSeparator s

/-- What the `ownerDocument` getter resolves to before its
`HTMLDocument` check. -/
def ownerDocResolved (globalDoc : Option Doc) (o : RawOptions) : Option Doc :=
  match o.ownerDocument with
  | some d => some d
  | none =>
    match o.element with
    | some e => e.ownerDocument
    | none => globalDoc

/-- The `name` getter would take the element `data-name` path: an element
is supplied and its `data-name` is truthy. -/
def dataNamePath (o : RawOptions) : Bool :=
  match o.element with
  | some el => truthy el.dataName
  | none => false

/-- The resolved type equals "option", sending the `name` getter into the
enclosing-select walk. -/
def typeResolvesOption (U : UnicodeModel) (o : RawOptions) : Bool :=
  match getType U o with
  | Except.ok t => t == some ("option".data)
  | Except.error _ => false

/-- The parent node of the options object makes the enclosing-select walk
loop forever: it is present and carries a tag name other than "select". -/
def walkDiverges (U : UnicodeModel) (o : RawOptions) : Bool :=
  match o.parentNode with
  | some p =>
    match p.tagName with
    | some tn => !(U.toLower tn == ("select".data))
    | none => false
  | none => false

theorem elementOK_isHTMLElement {o : RawOptions} {e : ElemInfo}
    (h : elementOK o = true) (ho : o.element = some e) : e.isHTMLElement = true := by
  unfold elementOK at h
  rw [ho] at h
  exact h

theorem getElement_of_elementOK {o : RawOptions} (h : elementOK o = true) :
    getElement o = Except.ok o.element := by
  rcases ho : o.element with _ | e
  · simp only [getElement, ho]
  · have h2 := elementOK_isHTMLElement h ho
    simp only [getElement, ho, h2, if_true]

theorem getType_ok (U : UnicodeModel) (o : RawOptions) (h : elementOK o = true) :
    ∃ t, getType U o = Except.ok t := by
  by_cases ht : truthy o.type = true
  · exact ⟨o.type, by simp only [getType, ht, if_true]⟩
  · rcases ho : o.element with _ | el
    · exact ⟨none, by simp only [getType, ht, getElement, ho, if_false, Bool.false_eq_true,
        if_neg (fun hcontr => ht hcontr)]⟩
    · have h2 := elementOK_isHTMLElement h ho
      by_cases het : truthy el.type = true
      · exact ⟨el.type, by simp only [getType, getElement, ho, h2, ht, het, if_true,
          if_neg (fun hcontr => ht hcontr), if_pos het, Bool.false_eq_true, if_false]⟩
      · rcases htn : el.tagName with _ | tn
        · exact ⟨none, by simp only [getType, getElement, ho, h2, if_true, htn,
            if_neg (fun hcontr => ht hcontr), if_neg (fun hcontr => het hcontr)]⟩
        · by_cases hemp : tn.isEmpty = true
          · exact ⟨none, by simp only [getType, getElement, ho, h2, if_true, htn, hemp,
              if_neg (fun hcontr => ht hcontr), if_neg (fun hcontr => het hcontr)]⟩
          · exact ⟨some (U.toLower tn), by simp only [getType, getElement, ho, h2, if_true,
              htn, if_neg (fun hcontr => ht hcontr), if_neg (fun hcontr => het hcontr),
              if_neg (fun hcontr => hemp hcontr)]⟩

/-- The `name` getter diverges exactly when no truthy `name` option and
no truthy element `data-name` short-circuit it, the resolved type is
"option", and the parent node makes the enclosing-select walk loop. -/
theorem getName_hang_char (U : UnicodeModel) (o : RawOptions) (h : elementOK o = true) :
    jsOutcomeHang (getName U o) =
      (!truthy o.name && !dataNamePath o && typeResolvesOption U o &&
        walkDiverges U o) := by
  obtain ⟨t, ht⟩ := getType_ok U o h
  by_cases hn : truthy o.name = true
  · simp [getName, hn, jsOutcomeHang]
  · rcases ho : o.element with _ | el
    · by_cases hto : (t == some ("option".data)) = true
      · rcases hp : o.parentNode with _ | p
        · simp [getName, hn, getElement, ho, ht, hto, getOptionSelectElement, hp,
            jsOutcomeHang, dataNamePath, typeResolvesOption, walkDiverges]
        · rcases htn : p.tagName with _ | tn
          · simp [getName, hn, getElement, ho, ht, hto, getOptionSelectElement, hp, htn,
              jsOutcomeHang, dataNamePath, typeResolvesOption, walkDiverges]
          · by_cases hsel : (U.toLower tn == ("select".data)) = true
            · simp [getName, hn, getElement, ho, ht, hto, getOptionSelectElement, hp, htn,
                hsel, jsOutcomeHang, dataNamePath, typeResolvesOption, walkDiverges]
            · simp [getName, hn, getElement, ho, ht, hto, getOptionSelectElement, hp, htn,
                hsel, jsOutcomeHang, dataNamePath, typeResolvesOption, walkDiverges]
      · simp [getName, hn, getElement, ho, ht, hto, jsOutcomeHang, dataNamePath,
          typeResolvesOption]
    · have h2 := elementOK_isHTMLElement h ho
      by_cases hdn : truthy el.dataName = true
      · simp [getName, hn, getElement, ho, h2, hdn, jsOutcomeHang, dataNamePath]
      · by_cases hto : (t == some ("option".data)) = true
        · rcases hp : o.parentNode with _ | p
          · simp [getName, hn, getElement, ho, h2, hdn, ht, hto, getOptionSelectElement,
              hp, jsOutcomeHang, dataNamePath, typeResolvesOption, walkDiverges]
          · rcases htn : p.tagName with _ | tn
            · simp [getName, hn, getElement, ho, h2, hdn, ht, hto, getOptionSelectElement,
                hp, htn, jsOutcomeHang, dataNamePath, typeResolvesOption, walkDiverges]
            · by_cases hsel : (U.toLower tn == ("select".data)) = true
              · simp [getName, hn, getElement, ho, h2, hdn, ht, hto,
                  getOptionSelectElement, hp, htn, hsel, jsOutcomeHang, dataNamePath,
                  typeResolvesOption, walkDiverges]
              · simp [getName, hn, getElement, ho, h2, hdn, ht, hto,
                  getOptionSelectElement, hp, htn, hsel, jsOutcomeHang, dataNamePath,
                  typeResolvesOption, walkDiverges]
        · simp [getName, hn, getElement, ho, h2, hdn, ht, hto, jsOutcomeHang,
            dataNamePath, typeResolvesOption]

theorem getOwnerDocument_eq (globalDoc : Option Doc) (o : RawOptions)
    (h : elementOK o = true) :
    getOwnerDocument globalDoc o =
      match ownerDocResolved globalDoc o with
      | some d => Except.ok d
      | none => Except.error ("ownerDocument must be HTMLDocument".data) := by
  rcases hod : o.ownerDocument with _ | d
  · rcases ho : o.element with _ | el
    · simp only [getOwnerDocument, ownerDocResolved, getElement, ho, hod]
    · have h2 := elementOK_isHTMLElement h ho
      simp only [getOwnerDocument, ownerDocResolved, getElement, ho, h2, if_true, hod]
  · simp only [getOwnerDocument, ownerDocResolved, getElement_of_elementOK h, hod]

/-- C8 counterexample input: a candidate with type "option", a parent
node tagged "div", and an invalid separator "a". -/
def optionWalkOptions : RawOptions where
  type := some ("option".data)
  parentNode := some { tagName := some ("div".data), name := none }
  separator := some ("a".data)

/-- C8 counterexample: the supplied separator "a" is invalid, yet
constructing raises no error at all — name resolution reaches the
enclosing-select walk, whose loop re-reads the same non-select parent
node forever, so construction diverges before the separator is ever
validated. -/
theorem inputId_invalid_separator_no_error :
    optionWalkOptions.separator = some ("a".data) ∧
    validSeparator ("a".data) = false ∧
    mkInputId asciiModel none optionWalkOptions = JsOutcome.hang :=
  ⟨rfl, by decide, rfl⟩

/-- C8 amended: construction returns normally exactly when the supplied
element (if any) is an HTMLElement, the supplied fallback (if any) passes
its validity check (non-empty, starts with an ASCII letter, remaining
characters ASCII letters, digits, underscore or hyphen), the name getter
returns (neither throws nor diverges), an owner document resolves, and
the supplied separator (if any) is one of "_", "-", ""; and construction
diverges — raising no error at all, in particular never reaching the
separator validation — exactly when element and fallback pass but name
derivation enters the enclosing-select walk against a parent node whose
tag name is not "select".  Hence an invalid fallback always raises at
construction time, an invalid separator raises only when name derivation
terminates, and no identifier generation occurs in any case (`mkInputId`
never consults a document lookup). -/
theorem inputId_constructor_validation (U : UnicodeModel) (globalDoc : Option Doc)
    (o : RawOptions) :
    jsOutcomeOk (mkInputId U globalDoc o) =
      (elementOK o && fallbackOK o && jsOutcomeOk (getName U o) &&
        (ownerDocResolved globalDoc o).isSome && separatorOK o) ∧
    jsOutcomeHang (mkInputId U globalDoc o) =
      (elementOK o && fallbackOK o &&
        (!truthy o.name && !dataNamePath o && typeResolvesOption U o &&
          walkDiverges U o)) := by
  by_cases hel : elementOK o = true
  · have hhang := getName_hang_char U o hel
    obtain ⟨t, ht⟩ := getType_ok U o hel
    have hod := getOwnerDocument_eq globalDoc o hel
    have hfbcase : (∃ fb, getFallback o = Except.ok fb ∧ fallbackOK o = true) ∨
        ((∃ m, getFallback o = Except.error m) ∧ fallbackOK o = false) := by
      rcases hf : o.fallback with _ | f
      · exact Or.inl ⟨("f".data), by simp [getFallback, hf], by simp [fallbackOK, hf]⟩
      · by_cases hvf : validFallback f = true
        · exact Or.inl ⟨f, by simp [getFallback, hf, hvf], by simp [fallbackOK, hf, hvf]⟩
        · exact Or.inr ⟨⟨("fallback is invalid".data), by simp [getFallback, hf, hvf]⟩,
            by simp [fallbackOK, hf, hvf]⟩
    rcases hfbcase with ⟨fb, hfb, hfbOK⟩ | ⟨⟨m, hfb⟩, hfbOK⟩
    · cases hx : getName U o with
      | ok n =>
        have hsc : (!truthy o.name && !dataNamePath o && typeResolvesOption U o &&
            walkDiverges U o) = false := by
          rw [← hhang, hx]
          rfl
        obtain ⟨b2, hfu⟩ : ∃ b2, getForceUniqueness U o = JsOutcome.ok b2 := by
          rcases hfub : o.forceUniqueness with _ | b
          · exact ⟨o.element.isSome || !truthy n,
              by simp [getForceUniqueness, hfub, getElement_of_elementOK hel, hx]⟩
          · exact ⟨b, by simp [getForceUniqueness, hfub]⟩
        rcases hodr : ownerDocResolved globalDoc o with _ | d
        · constructor
          · simp [mkInputId, getElement_of_elementOK hel, hfb, hfu, hx, hod, hodr,
              jsOutcomeOk]
          · simp [mkInputId, getElement_of_elementOK hel, hfb, hfu, hx, hod, hodr,
              jsOutcomeHang, hsc]
        · rcases hsep : o.separator with _ | s
          · constructor
            · simp [mkInputId, getElement_of_elementOK hel, hfb, hfu, hx, hod, hodr,
                getSeparator, hsep, ht, jsOutcomeOk, hel, hfbOK, separatorOK]
            · simp [mkInputId, getElement_of_elementOK hel, hfb, hfu, hx, hod, hodr,
                getSeparator, hsep, ht, jsOutcomeHang, hsc]
          · by_cases hvs : validSeparator s = true
            · constructor
              · simp [mkInputId, getElement_of_elementOK hel, hfb, hfu, hx, hod, hodr,
                  getSeparator, hsep, hvs, ht, jsOutcomeOk, hel, hfbOK, separatorOK]
              · simp [mkInputId, getElement_of_elementOK hel, hfb, hfu, hx, hod, hodr,
                  getSeparator, hsep, hvs, ht, jsOutcomeHang, hsc]
            · constructor
              · simp [mkInputId, getElement_of_elementOK hel, hfb, hfu, hx, hod, hodr,
                  getSeparator, hsep, hvs, jsOutcomeOk, separatorOK]
              · simp [mkInputId, getElement_of_elementOK hel, hfb, hfu, hx, hod, hodr,
                  getSeparator, hsep, hvs, jsOutcomeHang, hsc]
      | error msg =>
        have hsc : (!truthy o.name && !dataNamePath o && typeResolvesOption U o &&
            walkDiverges U o) = false := by
          rw [← hhang, hx]
          rfl
        have hfucase : (∃ m2, getForceUniqueness U o = JsOutcome.error m2) ∨
            ∃ b2, getForceUniqueness U o = JsOutcome.ok b2 := by
          rcases hfub : o.forceUniqueness with _ | b
          · exact Or.inl ⟨msg, by simp [getForceUniqueness, hfub,
              getElement_of_elementOK hel, hx]⟩
          · exact Or.inr ⟨b, by simp [getForceUniqueness, hfub]⟩
        rcases hfucase with ⟨m2, hfu⟩ | ⟨b2, hfu⟩
        · constructor
          · simp [mkInputId, getElement_of_elementOK hel, hfb, hfu, hx, jsOutcomeOk]
          · simp [mkInputId, getElement_of_elementOK hel, hfb, hfu, hx, jsOutcomeHang,
              hsc]
        · constructor
          · simp [mkInputId, getElement_of_elementOK hel, hfb, hfu, hx, jsOutcomeOk]
          · simp [mkInputId, getElement_of_elementOK hel, hfb, hfu, hx, jsOutcomeHang,
              hsc]
      | hang =>
        have hsc : (!truthy o.name && !dataNamePath o && typeResolvesOption U o &&
            walkDiverges U o) = true := by
          rw [← hhang, hx]
          rfl
        have hfucase : getForceUniqueness U o = JsOutcome.hang ∨
            ∃ b2, getForceUniqueness U o = JsOutcome.ok b2 := by
          rcases hfub : o.forceUniqueness with _ | b
          · exact Or.inl (by simp [getForceUniqueness, hfub,
              getElement_of_elementOK hel, hx])
          · exact Or.inr ⟨b, by simp [getForceUniqueness, hfub]⟩
        rcases hfucase with hfu | ⟨b2, hfu⟩
        · constructor
          · simp [mkInputId, getElement_of_elementOK hel, hfb, hfu, hx, jsOutcomeOk]
          · simp [mkInputId, getElement_of_elementOK hel, hfb, hfu, hx, jsOutcomeHang,
              hsc, hel, hfbOK]
        · constructor
          · simp [mkInputId, getElement_of_elementOK hel, hfb, hfu, hx, jsOutcomeOk]
          · simp [mkInputId, getElement_of_elementOK hel, hfb, hfu, hx, jsOutcomeHang,
              hsc, hel, hfbOK]
    · constructor
      · simp [mkInputId, getElement_of_elementOK hel, hfb, jsOutcomeOk, hfbOK]
      · simp [mkInputId, getElement_of_elementOK hel, hfb, jsOutcomeHang, hfbOK]
  · simp only [Bool.not_eq_true] at hel
    have hoe : ∃ e, o.element = some e ∧ e.isHTMLElement = false := by
      unfold elementOK at hel
      rcases ho : o.element with _ | e
      · rw [ho] at hel
        simp at hel
      · rw [ho] at hel
        exact ⟨e, rfl, hel⟩
    obtain ⟨e, ho, he⟩ := hoe
    constructor
    · simp [mkInputId, getElement, ho, he, jsOutcomeOk, elementOK]
    · simp [mkInputId, getElement, ho, he, jsOutcomeHang, elementOK]

/-- `toArray()` from the `InputId` class: the prefix when not null, the
name when truthy, and the value when the type is truthy, the value is not
null and the type is one of "checkbox", "radio", "option". -/
def toArray (st : InputIdState) : List (List Char) :=
  (match st.idPrefix with
    | some p => [p]
    | none => []) ++
  (match st.name with
    | some n => if n.isEmpty then [] else [n]
    | none => []) ++
  (match st.type, st.value with
    | some t, some v =>
      if !t.isEmpty &&
          (t == ("checkbox".data) || t == ("radio".data) || t == ("option".data))
      then [v] else []
    | _, _ => [])

/-- The body of `toString()` on a cache miss: join the parts with the
separator, then either resolve uniqueness against the owner document (with
the element as the node when present, else the document itself) or merely
clean.  The argument `d` is the state, at the moment of the call, of the
document referenced by the instance's `_ownerDocument`. -/
def computeString (U : UnicodeModel) (fuel : Nat) (st : InputIdState) (d : Doc) :
    Option (List Char) :=
  if st.forceUniqueness then
    generateUniqueFromBaseId U fuel d
      (match st.element with
        | some e => NodeRef.elem e.ident
        | none => NodeRef.doc)
      (List.intercalate st.separator (toArray st)) st.fallback st.separator
  else
    some (clean U (List.intercalate st.separator (toArray st)) d.doctype
      st.fallback st.separator)

/-- An `InputId` instance: the sealed fields together with the `_string`
cache, which is null until the first `toString()` call. -/
structure InputIdInst where
  st : InputIdState
  string : Option (List Char)

/-- `toString()` (and therefore `valueOf()`): return the cached string
when present, without touching the document; otherwise compute the string,
store it in `_string` and freeze the instance.  The result is `none` only
when the inner unbounded loop would exceed the fuel of the model. -/
def inputIdToString (U : UnicodeModel) (fuel : Nat) :
    InputIdInst → Doc → Option (List Char × InputIdInst)
  | ⟨st, some s⟩, _ => some (s, ⟨st, some s⟩)
  | ⟨st, none⟩, d =>
    match computeString U fuel st d with
    | some s => some (s, ⟨st, some s⟩)
    | none => none

/-- C9: the identifier string of an instance is computed at most once.
Once a `toString()` call has returned the string `s`, every later call on
the resulting instance returns the same `s` and the same instance without
consulting the document lookup again: the later result does not depend on
the document state passed at call time (nor on the Unicode model or the
fuel), and the instance fields are unchanged. -/
theorem inputId_toString_memoized (U : UnicodeModel) (fuel : Nat) (i : InputIdInst)
    (d : Doc) (s : List Char) (iNext : InputIdInst)
    (h : inputIdToString U fuel i d = some (s, iNext)) :
    iNext.string = some s ∧ iNext.st = i.st ∧
      ∀ (U2 : UnicodeModel) (fuel2 : Nat) (d2 : Doc),
        inputIdToString U2 fuel2 iNext d2 = some (s, iNext) := by
  obtain ⟨st0, str0⟩ := i
  cases str0 with
  | some s0 =>
    rw [inputIdToString] at h
    simp only [Option.some.injEq, Prod.mk.injEq] at h
    obtain ⟨rfl, rfl⟩ := h
    exact ⟨rfl, rfl, fun U2 fuel2 d2 => by rw [inputIdToString]⟩
  | none =>
    rw [inputIdToString] at h
    cases hc : computeString U fuel st0 d with
    | none =>
      rw [hc] at h
      simp at h
    | some s1 =>
      rw [hc] at h
      simp only [Option.some.injEq, Prod.mk.injEq] at h
      obtain ⟨rfl, rfl⟩ := h
      exact ⟨rfl, rfl, fun U2 fuel2 d2 => by rw [inputIdToString]⟩

/-- A concrete resolved instance state: no element, name "a", fallback
"f", separator "_", no uniqueness enforcement, owner document empty. -/
def sampleState : InputIdState where
  element := none
  fallback := "f".data
  forceUniqueness := false
  name := some ("a".data)
  value := none
  ownerDocument := emptyDoc
  idPrefix := none
  separator := "_".data
  type := none

/-- A fresh instance over `sampleState` (no cached string yet). -/
def sampleInst : InputIdInst where
  st := sampleState
  string := none

theorem inputId_toString_memoized_witness :
    inputIdToString asciiModel 1 sampleInst emptyDoc =
      some ("a".data, ⟨sampleState, some ("a".data)⟩) ∧
    ((⟨sampleState, some ("a".data)⟩ : InputIdInst).string = some ("a".data) ∧
      (⟨sampleState, some ("a".data)⟩ : InputIdInst).st = sampleInst.st ∧
      ∀ (U2 : UnicodeModel) (fuel2 : Nat) (d2 : Doc),
        inputIdToString U2 fuel2 ⟨sampleState, some ("a".data)⟩ d2 =
          some ("a".data, ⟨sampleState, some ("a".data)⟩)) :=
  ⟨rfl,
    inputId_toString_memoized asciiModel 1 sampleInst emptyDoc ("a".data)
      ⟨sampleState, some ("a".data)⟩ rfl⟩

/-- C7: the full generation pipeline (part assembly, normalization and —
when uniqueness is requested — the uniqueness resolver) is a function of
the instance fields and the document state: two runs with identical inputs
against a document whose doctype and identifier assignments are unchanged
between the calls yield identical output. -/
theorem pipeline_deterministic (U : UnicodeModel) (fuel : Nat) (st : InputIdState)
    (d1 d2 : Doc) (hdt : d1.doctype = d2.doctype)
    (hid : ∀ s, d1.getElementById s = d2.getElementById s) :
    computeString U fuel st d1 = computeString U fuel st d2 := by
  have hd : d1 = d2 := by
    obtain ⟨dt1, g1⟩ := d1
    obtain ⟨dt2, g2⟩ := d2
    simp only at hdt hid
    subst hdt
    have hg : g1 = g2 := funext hid
    rw [hg]
  rw [hd]

/-- A second empty document value, equal in content to `emptyDoc` but a
distinct term: the two calls of the witness run against the two values. -/
def emptyDocB : Doc where
  doctype := html5Doctype
  getElementById := fun _ => none

theorem pipeline_deterministic_witness :
    emptyDoc.doctype = emptyDocB.doctype ∧
    (∀ s, emptyDoc.getElementById s = emptyDocB.getElementById s) ∧
    computeString asciiModel 1 sampleState emptyDoc =
      computeString asciiModel 1 sampleState emptyDocB :=
  ⟨rfl, fun _ => rfl,
    pipeline_deterministic asciiModel 1 sampleState emptyDoc emptyDocB rfl (fun _ => rfl)⟩
